import Mathlib

/-!
# Verification of the NYC Property Analytics dashboard core (`src/App.js`)

Shallow embedding of the dashboard's derived-metrics computation, chart
preparation, animated-number slot state machine, and the fetch-effect
coordinator (cancel-flag scheme), together with proofs of the spec claims.

Conventions of the embedding:
* JS numbers are modelled as `ℚ` (the code performs only field arithmetic,
  `Math.round`, `Math.max`, comparison); `Math.round x` is `round x`
  (both are `⌊x + 1/2⌋`).
* A possibly-missing object field is `Option _`; the JS idiom `x || 0`
  on a numeric-or-missing field is `Option.getD · 0`.
* `Array.prototype.sort` with comparator `(a, b) => keyB - keyA` is a
  stable sort placing larger keys first; since the stable sorted
  permutation for a total preorder is unique, it is modelled by
  `List.insertionSort` with the relation `fun a b => key b ≤ key a`.
-/

namespace NYCDash

/-- One sales-aggregate row as delivered by the API.  Fields mirror the
object keys read by `App.js` (`borough`, `neighborhood`, `median_value`,
`avg_value`, `count`); each may be absent. -/
structure Row where
  borough : Option String
  neighborhood : Option String
  median_value : Option ℚ
  avg_value : Option ℚ
  count : Option ℚ
deriving DecidableEq

/-- `r.median_value || 0`. -/
def medKey (r : Row) : ℚ := r.median_value.getD 0

/-- `r.count || 0`. -/
def cntKey (r : Row) : ℚ := r.count.getD 0

/-- Model of `[...data].sort((a, b) => (key(b) || 0) - (key(a) || 0))`:
the stable descending sort by `key` (see the header comment). -/
def sortDescBy (key : Row → ℚ) (l : List Row) : List Row :=
  List.insertionSort (fun a b => key b ≤ key a) l

/-- The first element of a list attaining the maximal `key`, by a linear
scan (first occurrence wins ties); `none` on the empty list. -/
def firstMaxBy (key : Row → ℚ) : List Row → Option Row
  | [] => none
  | r :: rs =>
    match firstMaxBy key rs with
    | none => some r
    | some m => if key r < key m then some m else some r

/-- The KPI record produced by the `useMemo` block of `App.js`
(`totalSales`, `median`, `topLabel`, `topValue`, `topVolumeLabel`,
`topVolumeCount`).  `topLabel`/`topVolumeLabel` are `Option String`
because `sorted[0]?.borough` may be `undefined`. -/
structure Kpis where
  totalSales : ℚ
  median : ℚ
  topLabel : Option String
  topValue : ℚ
  topVolumeLabel : Option String
  topVolumeCount : ℚ
deriving DecidableEq

/-- The `kpis` memo of `App.js`: placeholder record on empty `data`,
otherwise sum of counts, rounded mean of `median_value || 0`, and the
heads of the two stable descending sorts. -/
def kpis (isAll : Bool) (data : List Row) : Kpis :=
  if data.isEmpty then
    { totalSales := 0
      median := 0
      topLabel := some "—"
      topValue := 0
      topVolumeLabel := some "—"
      topVolumeCount := 0 }
  else
    let totalSales : ℚ := data.foldl (fun sum r => sum + cntKey r) 0
    let median : ℚ :=
      ((round ((data.foldl (fun sum r => sum + medKey r) 0) / (data.length : ℚ)) : ℤ) : ℚ)
    let sortedByMedian := sortDescBy medKey data
    let sortedByCount := sortDescBy cntKey data
    { totalSales := totalSales
      median := median
      topLabel :=
        if isAll then sortedByMedian.head?.bind Row.borough
        else sortedByMedian.head?.bind Row.neighborhood
      topValue := (sortedByMedian.head?.bind Row.median_value).getD 0
      topVolumeLabel :=
        if isAll then sortedByCount.head?.bind Row.borough
        else sortedByCount.head?.bind Row.neighborhood
      topVolumeCount := (sortedByCount.head?.bind Row.count).getD 0 }

/-- `chartData` of `App.js`: all rows in response order for the
all-boroughs scope, else the stable descending sort by median truncated
to 10 (`.slice(0, 10)`). -/
def chartData (isAll : Bool) (data : List Row) : List Row :=
  if isAll then data else (sortDescBy medKey data).take 10

/-- The spec's `meanOfMedians` taken literally (§3): the arithmetic mean
of `medianValue` over all rows, an absent value contributing 0 while the
row still counts in the denominator.  Spec-side definition, to be
compared with the `median` field computed by `kpis`. -/
def meanOfMediansSpec (data : List Row) : ℚ :=
  (data.map medKey).sum / (data.length : ℚ)

/-! ## Bar chart (`BarChart` component) -/

/-- `Math.max(...data.map(d => Number(d[valueKey]) || 0))` for non-empty
`data` (the component returns `null` before this runs on empty input). -/
def barMax (val : Row → ℚ) (data : List Row) : ℚ :=
  match data.map val with
  | [] => 0
  | v :: vs => vs.foldl max v

/-- One bar's width percentage:
`max > 0 ? Math.max(4, Math.round((val / max) * 100)) : 0`. -/
def barPct (maxv v : ℚ) : ℤ :=
  if 0 < maxv then max 4 (round (v / maxv * 100)) else 0

/-- The list of rendered bar widths: empty input renders nothing
(`if (!data || !data.length) return null`), otherwise one percentage per
row against the collection maximum. -/
def barPcts (val : Row → ℚ) (data : List Row) : List ℤ :=
  if data.isEmpty then []
  else data.map (fun r => barPct (barMax val data) (val r))

/-! ## Animated number slot (`AnimatedNumber` component) -/

/-- Persistent per-slot state of `AnimatedNumber`: the `previous` ref
(last committed target, initially 0) and the `hasAnimated` flag
(initially `false`). -/
structure SlotState where
  previous : ℚ
  hasAnimated : Bool
deriving DecidableEq

/-- State of a freshly mounted slot. -/
def slotInit : SlotState := ⟨0, false⟩

/-- The spring's `from` value at a render:
`hasAnimated ? previous.current : 0`. -/
def springFrom (s : SlotState) : ℚ :=
  if s.hasAnimated then s.previous else 0

/-- The post-render effect of `AnimatedNumber` for an incoming `value`
(possibly `undefined`): `previous.current = value || 0` and
`if (!hasAnimated && (value || 0) > 0) setHasAnimated(true)`. -/
def commitTarget (s : SlotState) (value : Option ℚ) : SlotState :=
  { previous := value.getD 0
    hasAnimated := s.hasAnimated || decide (0 < value.getD 0) }

/-- Process a sequence of committed targets starting from slot state `s`. -/
def runSlot (s : SlotState) (ts : List (Option ℚ)) : SlotState :=
  ts.foldl commitTarget s

/-! ## Fetch coordinator (the `useEffect` + `load` of `App.js`)

Each run of the effect closes over its own mutable `cancel` flag; the
effect's cleanup sets that flag, and React runs the previous cleanup
exactly when the dependencies `(months, selectedBorough)` change.  So an
`issue` event cancels the most recent request and appends a live one,
and a `resolve` event applies its result only if its request's flag is
still unset at resolution time. -/

/-- `selectedBorough`: the string `"All"` or a borough name. -/
inductive Scope where
  | all : Scope
  | borough : String → Scope
deriving DecidableEq

/-- One `(months, selectedBorough)` selection, the effect's dependencies. -/
structure Selection where
  months : ℕ
  scope : Scope
deriving DecidableEq

/-- Outcome of one network call.  `ok rows` carries the extracted
collection (`res?.boroughs || []` resp. `res?.neighborhoods || []`);
`fail` is a rejected fetch (the `try`/`finally` has no state effect on
rows in that case). -/
inductive FetchResult where
  | ok : List Row → FetchResult
  | fail : FetchResult
deriving DecidableEq

/-- One issued request: the selection it closed over and its `cancel`
flag. -/
structure Request where
  sel : Selection
  cancel : Bool
deriving DecidableEq

/-- The coordinator-relevant component state: `salesData`,
`neighborhoodData`, `loadingNYC`, plus the history of issued requests
with their cancel flags. -/
structure AppState where
  salesData : List Row
  neighborhoodData : List Row
  loadingNYC : Bool
  requests : List Request
deriving DecidableEq

/-- Initial component state: `useState([])`, `useState([])`,
`useState(true)`, no request issued yet. -/
def initState : AppState := ⟨[], [], true, []⟩

/-- Cleanup of the most recent effect run: set the last request's
`cancel` flag (`return () => (cancel = true)`). -/
def cancelLast : List Request → List Request
  | [] => []
  | [r] => [{ r with cancel := true }]
  | r :: r' :: rs => r :: cancelLast (r' :: rs)

/-- External events: a selection change (tear down the previous effect,
start a new `load`) or the resolution of the `idx`-th issued request. -/
inductive Event where
  | issue : Selection → Event
  | resolve : ℕ → FetchResult → Event
deriving DecidableEq

/-- State update performed by the body of `load` on a successful or
failed response for a given scope: all-scope success sets `salesData`
and clears `neighborhoodData`; borough-scope success sets
`neighborhoodData` only; a failure touches neither. -/
def applyResult (s : AppState) (scope : Scope) (res : FetchResult) : AppState :=
  match scope, res with
  | .all, .ok rows => { s with salesData := rows, neighborhoodData := [] }
  | .borough _, .ok rows => { s with neighborhoodData := rows }
  | _, .fail => s

/-- One step of the coordinator.  `issue` runs the previous cleanup,
registers a live request and synchronously sets `loadingNYC` to true
(`setLoadingNYC(true)` at the top of `load`).  `resolve` checks the
request's `cancel` flag at resolution time: if set (or the index is
unknown) nothing happens; otherwise the result is applied and the
`finally` clears `loadingNYC`. -/
def step (s : AppState) : Event → AppState
  | .issue sel =>
    { s with
      requests := cancelLast s.requests ++ [⟨sel, false⟩]
      loadingNYC := true }
  | .resolve idx res =>
    match s.requests[idx]? with
    | none => s
    | some req =>
      if req.cancel then s
      else { applyResult s req.sel.scope res with loadingNYC := false }

/-- Run a trace of events. -/
def run (s : AppState) (es : List Event) : AppState :=
  es.foldl step s

/-- The rows the UI displays under a scope:
`data = isAll ? salesData : neighborhoodData`. -/
def displayedRows (scope : Scope) (s : AppState) : List Row :=
  match scope with
  | .all => s.salesData
  | .borough _ => s.neighborhoodData

/-- All requests other than the most recent one carry a set `cancel`
flag. -/
def StaleCancelled (l : List Request) : Prop :=
  ∀ i r, l[i]? = some r → i + 1 ≠ l.length → r.cancel = true

/-! ## Concrete data used by the witnesses and counterexamples -/

/-- Borough row "A" with 10 transactions at median 500000 (spec §8.2). -/
def exRowA : Row := ⟨some "A", none, some 500000, none, some 10⟩

/-- Borough row "B" with 30 transactions at median 500000 (spec §8.2). -/
def exRowB : Row := ⟨some "B", none, some 500000, none, some 30⟩

/-- Row with median 100 (spec §8.3). -/
def exRow100 : Row := ⟨none, none, some 100, none, none⟩

/-- Row with median 200 (spec §8.3). -/
def exRow200 : Row := ⟨none, none, some 200, none, none⟩

/-- Row with all fields absent (spec §8.3's "missing" row). -/
def exRowMissing : Row := ⟨none, none, none, none, none⟩

/-- Row with median 1. -/
def exRow1 : Row := ⟨none, none, some 1, none, none⟩

/-- Row with median 2. -/
def exRow2 : Row := ⟨none, none, some 2, none, none⟩

/-- Row with median 5. -/
def exRow5 : Row := ⟨none, none, some 5, none, none⟩

/-- Row with median 0. -/
def exRow0 : Row := ⟨none, none, some 0, none, none⟩

/-- A one-row borough-level response. -/
def exRowsManhattan : List Row := [⟨some "Manhattan", none, some 1000, some 900, some 5⟩]

/-- A one-row neighborhood-level response. -/
def exRowsWilliamsburg : List Row := [⟨none, some "Williamsburg", some 800, some 700, some 3⟩]

/-- Scope-switch trace: select all boroughs, apply its response, switch to
Brooklyn, apply that response. -/
def c6trace : List Event :=
  [.issue ⟨12, .all⟩, .resolve 0 (.ok exRowsManhattan),
   .issue ⟨12, .borough "Brooklyn"⟩, .resolve 1 (.ok exRowsWilliamsburg)]

/-- A state with one live (uncancelled) all-boroughs request and some
previously loaded rows. -/
def c6state : AppState :=
  ⟨exRowsManhattan, exRowsWilliamsburg, true, [⟨⟨12, Scope.all⟩, false⟩]⟩

/-- The three selection changes W1, W2, W3 of the racing scenario. -/
def c1issues : List Event :=
  [.issue ⟨1, .all⟩, .issue ⟨3, .all⟩, .issue ⟨6, .all⟩]

/-- Resolutions of the racing scenario, W1's network response arriving
last. -/
def c1resolves : List Event :=
  [.resolve 1 (.ok [exRow200]), .resolve 2 (.ok [exRow1]), .resolve 0 (.ok [exRow100])]

/-! ## Helper lemmas: sums and the stable descending sort -/

theorem foldl_add_key (key : Row → ℚ) (l : List Row) :
    ∀ a : ℚ, l.foldl (fun sum r => sum + key r) a = a + (l.map key).sum := by
  induction l with
  | nil => intro a; simp
  | cons x t ih => intro a; simp [List.foldl_cons, ih, add_assoc]

theorem sortDescBy_cons (key : Row → ℚ) (a : Row) (t : List Row) :
    sortDescBy key (a :: t) =
      List.orderedInsert (fun x y => key y ≤ key x) a (sortDescBy key t) := rfl

theorem sorted_sortDescBy (key : Row → ℚ) (l : List Row) :
    List.Sorted (fun a b => key b ≤ key a) (sortDescBy key l) := by
  haveI h1 : IsTotal Row (fun a b => key b ≤ key a) := ⟨fun a b => le_total (key b) (key a)⟩
  haveI h2 : IsTrans Row (fun a b => key b ≤ key a) := ⟨fun a b c hab hbc => le_trans hbc hab⟩
  exact List.sorted_insertionSort (fun a b => key b ≤ key a) l

theorem perm_sortDescBy (key : Row → ℚ) (l : List Row) :
    List.Perm (sortDescBy key l) l :=
  List.perm_insertionSort (fun a b => key b ≤ key a) l

theorem head?_orderedInsert (key : Row → ℚ) (a : Row) (l : List Row) :
    (List.orderedInsert (fun x y => key y ≤ key x) a l).head? =
      some (match l.head? with
        | none => a
        | some b => if key b ≤ key a then a else b) := by
  cases l with
  | nil => rfl
  | cons b t =>
    by_cases h : key b ≤ key a
    · simp [List.orderedInsert, h]
    · simp [List.orderedInsert, h]

theorem head?_sortDescBy (key : Row → ℚ) (l : List Row) :
    (sortDescBy key l).head? = firstMaxBy key l := by
  induction l with
  | nil => rfl
  | cons a t ih =>
    rw [sortDescBy_cons, head?_orderedInsert, ih]
    cases hm : firstMaxBy key t with
    | none => simp [firstMaxBy, hm]
    | some m =>
      by_cases h : key a < key m
      · simp [firstMaxBy, hm, h, not_le.mpr h]
      · simp [firstMaxBy, hm, h, not_lt.mp h]

theorem filter_orderedInsert (key : Row → ℚ) (v : ℚ) (a : Row) (l : List Row) :
    (List.orderedInsert (fun x y => key y ≤ key x) a l).filter (fun r => decide (key r = v)) =
      (a :: l).filter (fun r => decide (key r = v)) := by
  induction l with
  | nil => rfl
  | cons b t ih =>
    by_cases h : key b ≤ key a
    · simp [List.orderedInsert, h]
    · rw [List.orderedInsert, if_neg h]
      have hab : key a < key b := not_le.mp h
      by_cases hb : key b = v
      · have ha : ¬ key a = v := fun hav => (ne_of_lt hab) (hav.trans hb.symm)
        simp [List.filter_cons, ih, hb, ha]
      · simp [List.filter_cons, ih, hb]

theorem filter_sortDescBy (key : Row → ℚ) (v : ℚ) (l : List Row) :
    (sortDescBy key l).filter (fun r => decide (key r = v)) =
      l.filter (fun r => decide (key r = v)) := by
  induction l with
  | nil => rfl
  | cons a t ih =>
    rw [sortDescBy_cons, filter_orderedInsert]
    simp only [List.filter_cons, ih]

theorem firstMaxBy_isSome (key : Row → ℚ) (a : Row) (t : List Row) :
    ∃ m, firstMaxBy key (a :: t) = some m := by
  cases hm : firstMaxBy key t with
  | none => exact ⟨a, by simp [firstMaxBy, hm]⟩
  | some m =>
    by_cases h : key a < key m
    · exact ⟨m, by simp [firstMaxBy, hm, h]⟩
    · exact ⟨a, by simp [firstMaxBy, hm, h]⟩

theorem firstMaxBy_first_of_maxima (key : Row → ℚ) :
    ∀ (l : List Row) (m : Row), firstMaxBy key l = some m →
      (∃ l₁ l₂, l = l₁ ++ m :: l₂ ∧ ∀ x ∈ l₁, key x < key m) ∧
      (∀ x ∈ l, key x ≤ key m) := by
  intro l
  induction l with
  | nil => intro m h; exact absurd h (by simp [firstMaxBy])
  | cons a t ih =>
    intro m h
    cases hm : firstMaxBy key t with
    | none =>
      have ht : t = [] := by
        cases t with
        | nil => rfl
        | cons b u =>
          obtain ⟨m', hm'⟩ := firstMaxBy_isSome key b u
          rw [hm'] at hm
          cases hm
      subst ht
      simp only [firstMaxBy] at h
      have hma : a = m := Option.some.inj h
      subst hma
      exact ⟨⟨[], [], rfl, by simp⟩, by simp⟩
    | some m' =>
      simp only [firstMaxBy, hm] at h
      by_cases hlt : key a < key m'
      · rw [if_pos hlt] at h
        have hmm : m' = m := Option.some.inj h
        subst hmm
        obtain ⟨⟨l₁, l₂, hsplit, hstrict⟩, hall⟩ := ih m' hm
        refine ⟨⟨a :: l₁, l₂, by simp [hsplit], ?_⟩, ?_⟩
        · intro x hx
          rcases List.mem_cons.mp hx with hxa | hx'
          · subst hxa; exact hlt
          · exact hstrict x hx'
        · intro x hx
          rcases List.mem_cons.mp hx with hxa | hx'
          · subst hxa; exact le_of_lt hlt
          · exact hall x hx'
      · rw [if_neg hlt] at h
        have hma : a = m := Option.some.inj h
        subst hma
        obtain ⟨_, hall⟩ := ih m' hm
        refine ⟨⟨[], t, rfl, by simp⟩, ?_⟩
        intro x hx
        rcases List.mem_cons.mp hx with hxa | hx'
        · subst hxa; exact le_refl _
        · exact le_trans (hall x hx') (not_lt.mp hlt)

/-! ## Claims about the metrics engine -/

/-- C3: the KPI computation on an empty row collection returns exactly the
placeholder summary (total 0, mean 0, top labels "—" with value/count 0);
being a total Lean function, it throws nothing and performs no division. -/
theorem C3_empty_placeholder (isAll : Bool) :
    kpis isAll [] = ⟨0, 0, some "—", 0, some "—", 0⟩ := rfl

/-- C2 counterexample: for the rows with medians 1 and 2 the code stores
`Math.round((1 + 2) / 2) = 2`, which is not the arithmetic mean `3/2`; so
the displayed `meanOfMedians` does not equal the arithmetic mean of
`medianValue` over all rows. -/
theorem C2_counterexample :
    (kpis true [exRow1, exRow2]).median ≠ meanOfMediansSpec [exRow1, exRow2] := by
  norm_num [kpis, meanOfMediansSpec, medKey, exRow1, exRow2, round_eq]

/-- C2 amended: the summary's `meanOfMedians` equals the arithmetic mean of
`medianValue` over all rows ROUNDED to the nearest integer (`Math.round`),
where an absent `medianValue` contributes 0 to the sum while the row still
counts in the denominator. -/
theorem C2_rounded_mean (isAll : Bool) (data : List Row) (h : data ≠ []) :
    (kpis isAll data).median = ((round (meanOfMediansSpec data) : ℤ) : ℚ) := by
  cases data with
  | nil => exact absurd rfl h
  | cons a t => simp [kpis, meanOfMediansSpec, foldl_add_key]

/-- C2 witness: on medians `[100, 200, missing]` the rounded mean agrees
with the claim's example and evaluates to 100 (sum 300 / count 3), not
150. -/
theorem C2_witness :
    ([exRow100, exRow200, exRowMissing] ≠ ([] : List Row)) ∧
    (kpis true [exRow100, exRow200, exRowMissing]).median =
      ((round (meanOfMediansSpec [exRow100, exRow200, exRowMissing]) : ℤ) : ℚ) ∧
    (kpis true [exRow100, exRow200, exRowMissing]).median = 100 :=
  ⟨by decide, C2_rounded_mean true [exRow100, exRow200, exRowMissing] (by decide),
   by norm_num [kpis, medKey, exRow100, exRow200, exRowMissing]⟩

/-- C4: for every non-empty row collection, `topValue`/`topLabel` come from
the first row in original input order among those with the largest
`medianValue` (rows strictly smaller before it, nothing larger anywhere),
and `topVolumeCount`/`topVolumeLabel` likewise for the largest `count`. -/
theorem C4_top_first_of_maxima (isAll : Bool) (data : List Row) (h : data ≠ []) :
    ∃ m mc,
      (∃ l₁ l₂, data = l₁ ++ m :: l₂ ∧ ∀ x ∈ l₁, medKey x < medKey m) ∧
      (∀ x ∈ data, medKey x ≤ medKey m) ∧
      (kpis isAll data).topValue = medKey m ∧
      (kpis isAll data).topLabel = (if isAll then m.borough else m.neighborhood) ∧
      (∃ k₁ k₂, data = k₁ ++ mc :: k₂ ∧ ∀ x ∈ k₁, cntKey x < cntKey mc) ∧
      (∀ x ∈ data, cntKey x ≤ cntKey mc) ∧
      (kpis isAll data).topVolumeCount = cntKey mc ∧
      (kpis isAll data).topVolumeLabel = (if isAll then mc.borough else mc.neighborhood) := by
  cases data with
  | nil => exact absurd rfl h
  | cons a t =>
    obtain ⟨m, hm⟩ := firstMaxBy_isSome medKey a t
    obtain ⟨mc, hmc⟩ := firstMaxBy_isSome cntKey a t
    obtain ⟨hfirst, hall⟩ := firstMaxBy_first_of_maxima medKey (a :: t) m hm
    obtain ⟨hfirst', hall'⟩ := firstMaxBy_first_of_maxima cntKey (a :: t) mc hmc
    have hv : (sortDescBy medKey (a :: t)).head? = some m := by rw [head?_sortDescBy, hm]
    have hc : (sortDescBy cntKey (a :: t)).head? = some mc := by rw [head?_sortDescBy, hmc]
    refine ⟨m, mc, hfirst, hall, ?_, ?_, hfirst', hall', ?_, ?_⟩
    · simp [kpis, hv, medKey]
    · cases isAll <;> simp [kpis, hv]
    · simp [kpis, hc, cntKey]
    · cases isAll <;> simp [kpis, hc]

/-- C4 witness: on the spec's tie example (rows "A" and "B" with equal
medians 500000 but counts 10 and 30) the top-by-value label is "A"
(first-occurrence tie-break) while the top-by-volume label is "B". -/
theorem C4_witness :
    ([exRowA, exRowB] ≠ ([] : List Row)) ∧
    (∃ m mc,
      (∃ l₁ l₂, [exRowA, exRowB] = l₁ ++ m :: l₂ ∧ ∀ x ∈ l₁, medKey x < medKey m) ∧
      (∀ x ∈ [exRowA, exRowB], medKey x ≤ medKey m) ∧
      (kpis true [exRowA, exRowB]).topValue = medKey m ∧
      (kpis true [exRowA, exRowB]).topLabel = (if true then m.borough else m.neighborhood) ∧
      (∃ k₁ k₂, [exRowA, exRowB] = k₁ ++ mc :: k₂ ∧ ∀ x ∈ k₁, cntKey x < cntKey mc) ∧
      (∀ x ∈ [exRowA, exRowB], cntKey x ≤ cntKey mc) ∧
      (kpis true [exRowA, exRowB]).topVolumeCount = cntKey mc ∧
      (kpis true [exRowA, exRowB]).topVolumeLabel = (if true then mc.borough else mc.neighborhood)) ∧
    (kpis true [exRowA, exRowB]).topLabel = some "A" ∧
    (kpis true [exRowA, exRowB]).topVolumeLabel = some "B" :=
  ⟨by decide, C4_top_first_of_maxima true [exRowA, exRowB] (by decide), by decide, by decide⟩

/-- C5: the all-boroughs chart uses the rows exactly as delivered; the
single-borough chart is the stable descending sort by `medianValue`
truncated to 10 elements — that sort is a permutation of the input, is
sorted descending, keeps rows of any equal median in original relative
order, and the truncation has length `min 10 n`. -/
theorem C5_chart_subset (data : List Row) (v : ℚ) :
    chartData true data = data ∧
    chartData false data = (sortDescBy medKey data).take 10 ∧
    List.Perm (sortDescBy medKey data) data ∧
    List.Sorted (fun a b => medKey b ≤ medKey a) (sortDescBy medKey data) ∧
    (sortDescBy medKey data).filter (fun r => decide (medKey r = v)) =
      data.filter (fun r => decide (medKey r = v)) ∧
    (chartData false data).length = min 10 data.length := by
  refine ⟨rfl, rfl, perm_sortDescBy medKey data, sorted_sortDescBy medKey data,
    filter_sortDescBy medKey v data, ?_⟩
  simp [chartData, sortDescBy, List.length_take, List.length_insertionSort]

/-! ## Claims about the bar chart -/

theorem foldl_max_zero : ∀ (l : List ℚ) (a : ℚ), (∀ x ∈ l, x = 0) → a = 0 → l.foldl max a = 0 := by
  intro l
  induction l with
  | nil => intro a _ ha; exact ha
  | cons v t ih =>
    intro a hz ha
    rw [List.foldl_cons]
    exact ih (max a v) (fun x hx => hz x (List.mem_cons_of_mem v hx))
      (by rw [ha, hz v (List.mem_cons_self v t)]; exact max_self 0)

theorem barMax_of_all_zero (val : Row → ℚ) (data : List Row)
    (hz : ∀ x ∈ data, val x = 0) : barMax val data = 0 := by
  have hmem : ∀ y ∈ data.map val, y = 0 := by
    intro y hy
    obtain ⟨x, hx, hxy⟩ := List.mem_map.mp hy
    rw [← hxy]
    exact hz x hx
  rw [barMax]
  cases hd : data.map val with
  | nil => rfl
  | cons v vs =>
    exact foldl_max_zero vs v (fun x hx => hmem x (hd ▸ List.mem_cons_of_mem v hx))
      (hmem v (hd ▸ List.mem_cons_self v vs))

/-- C9: the empty collection renders no bars; for non-empty data each bar's
width is `barPct` of the collection maximum (4%-floored rounded share when
the maximum is positive, 0 otherwise); a bar whose value equals a positive
collection maximum renders at exactly 100%; and on an all-zero collection
every rendered width is 0%.  All operations are total, so no division
error can occur. -/
theorem C9_bar_chart (val : Row → ℚ) (data : List Row) (r : Row) :
    barPcts val [] = [] ∧
    (data ≠ [] → barPcts val data = data.map (fun x => barPct (barMax val data) (val x))) ∧
    (0 < barMax val data → val r = barMax val data →
      barPct (barMax val data) (val r) = 100) ∧
    ((∀ x ∈ data, val x = 0) → ∀ p ∈ barPcts val data, p = 0) := by
  refine ⟨rfl, ?_, ?_, ?_⟩
  · intro h
    cases data with
    | nil => exact absurd rfl h
    | cons a t => simp [barPcts]
  · intro hpos hval
    rw [barPct, if_pos hpos, hval, div_self (ne_of_gt hpos)]
    norm_num
  · intro hz p hp
    have hM : barMax val data = 0 := barMax_of_all_zero val data hz
    rw [barPcts] at hp
    by_cases hd : data.isEmpty = true
    · simp [hd] at hp
    · simp only [hd, if_false] at hp
      obtain ⟨x, _, hxp⟩ := List.mem_map.mp hp
      rw [← hxp, hM]
      simp [barPct]

/-- C9 witness: for medians `[5, 0]` the maximal bar renders at 100%; on
the all-zero collection `[0, 0]` every bar renders at 0%; the empty
collection renders nothing. -/
theorem C9_witness :
    (0 : ℚ) < barMax medKey [exRow5, exRow0] ∧
    medKey exRow5 = barMax medKey [exRow5, exRow0] ∧
    barPct (barMax medKey [exRow5, exRow0]) (medKey exRow5) = 100 ∧
    (∀ x ∈ [exRow0, exRow0], medKey x = 0) ∧
    (∀ p ∈ barPcts medKey [exRow0, exRow0], p = 0) ∧
    barPcts medKey ([] : List Row) = [] :=
  ⟨by decide, by decide,
   (C9_bar_chart medKey [exRow5, exRow0] exRow5).2.2.1 (by decide) (by decide),
   by decide,
   (C9_bar_chart medKey [exRow0, exRow0] exRow0).2.2.2 (by decide),
   (C9_bar_chart medKey [] exRow0).1⟩

/-! ## Claims about the animated-number slot -/

theorem runSlot_hasAnimated (ts : List (Option ℚ)) :
    ∀ s : SlotState, (runSlot s ts).hasAnimated =
      (s.hasAnimated || ts.any fun v => decide ((0:ℚ) < v.getD 0)) := by
  induction ts with
  | nil => intro s; simp [runSlot]
  | cons t ts ih =>
    intro s
    rw [runSlot, List.foldl_cons,
      show List.foldl commitTarget (commitTarget s t) ts = runSlot (commitTarget s t) ts from rfl,
      ih]
    simp [commitTarget, List.any_cons, Bool.or_assoc]

theorem runSlot_previous (ts : List (Option ℚ)) :
    ∀ s : SlotState, (runSlot s ts).previous =
      (ts.map fun v => v.getD 0).getLastD s.previous := by
  induction ts with
  | nil => intro s; simp [runSlot]
  | cons t ts ih =>
    intro s
    rw [runSlot, List.foldl_cons,
      show List.foldl commitTarget (commitTarget s t) ts = runSlot (commitTarget s t) ts from rfl,
      ih, List.map_cons, List.getLastD_cons]
    rfl

/-- C10 counterexample: committing the target −1 — a nonzero value — does
NOT mark the slot as having animated: the code's guard is
`(value || 0) > 0`, not "nonzero". -/
theorem C10_counterexample :
    (some (-1 : ℚ)).getD 0 ≠ 0 ∧
    (runSlot slotInit [some (-1 : ℚ)]).hasAnimated = false := by
  constructor
  · norm_num
  · simp [runSlot, commitTarget, slotInit]

/-- C10 amended: the slot is marked (`hasAnimated`) exactly when a POSITIVE
target has been committed; until then the spring starts from 0 (including
the render of the first-ever positive target); once marked, every
animation starts from the previously committed target value, never
resetting to 0. -/
theorem C10_first_positive_marks (ts : List (Option ℚ)) :
    ((runSlot slotInit ts).hasAnimated = true ↔ ∃ v ∈ ts, (0:ℚ) < v.getD 0) ∧
    (runSlot slotInit ts).previous = (ts.map fun v => v.getD 0).getLastD 0 ∧
    ((runSlot slotInit ts).hasAnimated = false → springFrom (runSlot slotInit ts) = 0) ∧
    ((runSlot slotInit ts).hasAnimated = true →
      springFrom (runSlot slotInit ts) = (ts.map fun v => v.getD 0).getLastD 0) := by
  refine ⟨?_, ?_, ?_, ?_⟩
  · rw [runSlot_hasAnimated]
    simp [slotInit, List.any_eq_true]
  · rw [runSlot_previous]
    rfl
  · intro h
    simp [springFrom, h]
  · intro h
    simp only [springFrom, h, if_true]
    rw [runSlot_previous]
    rfl

/-- C10 witness: after targets 100 then 250 the slot is marked and the
next spring starts from the previously committed 250, not from 0. -/
theorem C10_witness :
    (runSlot slotInit [some (100:ℚ), some 250]).hasAnimated = true ∧
    springFrom (runSlot slotInit [some (100:ℚ), some 250]) = 250 := by
  have h := C10_first_positive_marks [some (100:ℚ), some 250]
  have h1 : (runSlot slotInit [some (100:ℚ), some 250]).hasAnimated = true :=
    h.1.mpr ⟨some 100, by simp, by norm_num⟩
  refine ⟨h1, ?_⟩
  rw [h.2.2.2 h1]
  rfl

/-! ## Helper lemmas: the fetch coordinator -/

theorem applyResult_requests (s : AppState) (sc : Scope) (res : FetchResult) :
    (applyResult s sc res).requests = s.requests := by
  cases sc <;> cases res <;> rfl

theorem step_resolve_eq (s : AppState) (idx : ℕ) (res : FetchResult) :
    step s (.resolve idx res) =
      match s.requests[idx]? with
      | none => s
      | some req =>
        if req.cancel then s
        else { applyResult s req.sel.scope res with loadingNYC := false } := rfl

theorem step_resolve_missing (s : AppState) (idx : ℕ) (res : FetchResult)
    (h : s.requests[idx]? = none) : step s (.resolve idx res) = s := by
  rw [step_resolve_eq, h]

theorem step_resolve_stale (s : AppState) (idx : ℕ) (res : FetchResult) (req : Request)
    (h : s.requests[idx]? = some req) (hc : req.cancel = true) :
    step s (.resolve idx res) = s := by
  rw [step_resolve_eq, h]
  simp [hc]

theorem step_resolve_live (s : AppState) (idx : ℕ) (res : FetchResult) (req : Request)
    (h : s.requests[idx]? = some req) (hc : req.cancel = false) :
    step s (.resolve idx res) =
      { applyResult s req.sel.scope res with loadingNYC := false } := by
  rw [step_resolve_eq, h]
  simp [hc]

theorem requests_step_resolve (s : AppState) (idx : ℕ) (res : FetchResult) :
    (step s (.resolve idx res)).requests = s.requests := by
  rw [step_resolve_eq]
  cases h : s.requests[idx]? with
  | none => rfl
  | some req =>
    by_cases hc : req.cancel = true
    · simp [hc]
    · simp only [Bool.not_eq_true] at hc
      simp [hc, applyResult_requests]

theorem step_issue_requests (s : AppState) (sel : Selection) :
    (step s (.issue sel)).requests = cancelLast s.requests ++ [⟨sel, false⟩] := rfl

theorem step_issue_loading (s : AppState) (sel : Selection) :
    (step s (.issue sel)).loadingNYC = true := rfl

theorem cancelLast_length : ∀ l : List Request, (cancelLast l).length = l.length := by
  intro l
  induction l with
  | nil => rfl
  | cons r rs ih =>
    cases rs with
    | nil => rfl
    | cons r' rs' => simp only [cancelLast, List.length_cons, ih]

theorem step_issue_length (s : AppState) (sel : Selection) :
    (step s (.issue sel)).requests.length = s.requests.length + 1 := by
  rw [step_issue_requests]
  simp [cancelLast_length]

theorem step_issue_last (s : AppState) (sel : Selection) :
    (step s (.issue sel)).requests[s.requests.length]? = some ⟨sel, false⟩ := by
  rw [step_issue_requests]
  rw [List.getElem?_append_right (by rw [cancelLast_length])]
  rw [cancelLast_length]
  simp

theorem cancelLast_cancel_of_last : ∀ (l : List Request) (i : ℕ) (r : Request),
    (cancelLast l)[i]? = some r → i + 1 = l.length → r.cancel = true := by
  intro l
  induction l with
  | nil => intro i r hi _; simp [cancelLast] at hi
  | cons r0 rs ih =>
    intro i r hi hlen
    cases rs with
    | nil =>
      have hi0 : i = 0 := by simpa using hlen
      subst hi0
      simp only [cancelLast, List.getElem?_cons_zero, Option.some.injEq] at hi
      rw [← hi]
    | cons r1 rs' =>
      cases i with
      | zero => simp [List.length_cons] at hlen
      | succ j =>
        simp only [cancelLast, List.getElem?_cons_succ] at hi
        exact ih j r hi (by simpa using hlen)

theorem cancelLast_getElem?_ne : ∀ (l : List Request) (i : ℕ), i + 1 ≠ l.length →
    (cancelLast l)[i]? = l[i]? := by
  intro l
  induction l with
  | nil => intro i _; rfl
  | cons r0 rs ih =>
    intro i hne
    cases rs with
    | nil =>
      cases i with
      | zero => exact absurd rfl hne
      | succ j => rfl
    | cons r1 rs' =>
      cases i with
      | zero => simp [cancelLast]
      | succ j =>
        simp only [cancelLast, List.getElem?_cons_succ]
        exact ih j (by simpa using hne)

theorem staleCancelled_issue (s : AppState) (sel : Selection)
    (h : StaleCancelled s.requests) : StaleCancelled (step s (.issue sel)).requests := by
  intro i r hi hne
  rw [step_issue_requests] at hi hne
  have hlen : (cancelLast s.requests ++ [(⟨sel, false⟩ : Request)]).length =
      s.requests.length + 1 := by
    simp [cancelLast_length]
  rw [hlen] at hne
  by_cases hlt : i < s.requests.length
  · have hi' : (cancelLast s.requests)[i]? = some r := by
      rw [List.getElem?_append_left (by rw [cancelLast_length]; exact hlt)] at hi
      exact hi
    by_cases hl : i + 1 = s.requests.length
    · exact cancelLast_cancel_of_last s.requests i r hi' hl
    · rw [cancelLast_getElem?_ne s.requests i hl] at hi'
      exact h i r hi' hl
  · exfalso
    by_cases hgt : i < s.requests.length + 1
    · exact hne (by omega)
    · rw [List.getElem?_eq_none (by simp [cancelLast_length]; omega)] at hi
      cases hi

theorem staleCancelled_step (s : AppState) (e : Event)
    (h : StaleCancelled s.requests) : StaleCancelled (step s e).requests := by
  cases e with
  | issue sel => exact staleCancelled_issue s sel h
  | resolve idx res => rw [requests_step_resolve]; exact h

theorem run_cons (s : AppState) (e : Event) (t : List Event) :
    run s (e :: t) = run (step s e) t := rfl

theorem run_append (s : AppState) (l₁ l₂ : List Event) :
    run s (l₁ ++ l₂) = run (run s l₁) l₂ := by
  simp [run, List.foldl_append]

theorem staleCancelled_run : ∀ (es : List Event) (s : AppState),
    StaleCancelled s.requests → StaleCancelled (run s es).requests := by
  intro es
  induction es with
  | nil => intro s h; exact h
  | cons e t ih =>
    intro s h
    rw [run_cons]
    exact ih (step s e) (staleCancelled_step s e h)

theorem staleCancelled_init : StaleCancelled initState.requests := by
  intro i r hi _
  simp [initState] at hi

theorem run_fixed (s : AppState) : ∀ ts : List Event, (∀ e ∈ ts, step s e = s) →
    run s ts = s := by
  intro ts
  induction ts with
  | nil => intro _; rfl
  | cons e t ih =>
    intro h
    rw [run_cons, h e (List.mem_cons_self e t)]
    exact ih (fun e' he' => h e' (List.mem_cons_of_mem e he'))

/-! ## Claims about the fetch coordinator -/

/-- C1: generation gating — the last selection change wins.  Issue three
selection changes W1, W2, W3 (with responses p1, p2, p3) on top of any
prior event history; then for ANY sequence of resolutions of those three
requests — in particular the order where W1's response arrives last — the
displayed rows end up exactly p3 once W3's resolution has arrived, and at
every intermediate point they are either unchanged from before the
resolutions or already p3: never W1's (or W2's) response. -/
theorem C1_last_selection_wins
    (pre : List Event) (sel1 sel2 sel3 : Selection) (p1 p2 p3 : List Row)
    (rs : List Event) (s1 : AppState) (n : ℕ)
    (hs1 : s1 = run initState (pre ++ [.issue sel1, .issue sel2, .issue sel3]))
    (hn : n = s1.requests.length)
    (hmem : ∀ e ∈ rs, e = Event.resolve (n - 3) (.ok p1) ∨
      e = Event.resolve (n - 2) (.ok p2) ∨ e = Event.resolve (n - 1) (.ok p3))
    (h3 : Event.resolve (n - 1) (.ok p3) ∈ rs) :
    displayedRows sel3.scope (run s1 rs) = p3 ∧
    (∀ t₁ t₂, rs = t₁ ++ t₂ →
      displayedRows sel3.scope (run s1 t₁) = displayedRows sel3.scope s1 ∨
      displayedRows sel3.scope (run s1 t₁) = p3) := by
  have hSC : StaleCancelled s1.requests := by
    rw [hs1]
    exact staleCancelled_run _ initState staleCancelled_init
  have hs1A : s1 = step (step (step (run initState pre) (.issue sel1)) (.issue sel2))
      (.issue sel3) := by
    rw [hs1, run_append]
    rfl
  have hnlen : n = (run initState pre).requests.length + 3 := by
    rw [hn, hs1A, step_issue_length, step_issue_length, step_issue_length]
  have hidx1 : (n - 3) + 1 ≠ n := by omega
  have hidx2 : (n - 2) + 1 ≠ n := by omega
  have hs2 : s1 = step (run initState (pre ++ [.issue sel1, .issue sel2])) (.issue sel3) := by
    rw [hs1, show pre ++ [Event.issue sel1, Event.issue sel2, Event.issue sel3] =
      (pre ++ [Event.issue sel1, Event.issue sel2]) ++ [Event.issue sel3] by simp, run_append]
    rfl
  have hlenstep : s1.requests.length =
      (run initState (pre ++ [.issue sel1, .issue sel2])).requests.length + 1 := by
    rw [hs2]
    exact step_issue_length _ sel3
  have hlast : s1.requests[n - 1]? = some ⟨sel3, false⟩ := by
    have hidx : n - 1 = (run initState (pre ++ [.issue sel1, .issue sel2])).requests.length := by
      omega
    rw [hidx, hs2]
    exact step_issue_last _ sel3
  have hstale : ∀ s' : AppState, s'.requests = s1.requests →
      ∀ (idx : ℕ) (res : FetchResult), idx + 1 ≠ n → step s' (.resolve idx res) = s' := by
    intro s' hreq idx res hne
    cases hq : s'.requests[idx]? with
    | none => exact step_resolve_missing s' idx res hq
    | some req =>
      refine step_resolve_stale s' idx res req hq ?_
      rw [hreq] at hq
      exact hSC idx req hq (by rw [← hn]; exact hne)
  have happly : step s1 (.resolve (n - 1) (.ok p3)) =
      { applyResult s1 sel3.scope (.ok p3) with loadingNYC := false } :=
    step_resolve_live s1 (n - 1) (.ok p3) ⟨sel3, false⟩ hlast rfl
  have hreqA : (step s1 (.resolve (n - 1) (.ok p3))).requests = s1.requests :=
    requests_step_resolve s1 (n - 1) (.ok p3)
  have hidem : step (step s1 (.resolve (n - 1) (.ok p3))) (.resolve (n - 1) (.ok p3)) =
      step s1 (.resolve (n - 1) (.ok p3)) := by
    have hlast' : (step s1 (.resolve (n - 1) (.ok p3))).requests[n - 1]? =
        some ⟨sel3, false⟩ := by
      rw [hreqA]
      exact hlast
    rw [step_resolve_live _ (n - 1) (.ok p3) ⟨sel3, false⟩ hlast' rfl, happly]
    cases sel3.scope <;> rfl
  have hconst : ∀ ts : List Event,
      (∀ e ∈ ts, e = Event.resolve (n - 3) (.ok p1) ∨
        e = Event.resolve (n - 2) (.ok p2) ∨ e = Event.resolve (n - 1) (.ok p3)) →
      run (step s1 (.resolve (n - 1) (.ok p3))) ts = step s1 (.resolve (n - 1) (.ok p3)) := by
    intro ts hts
    apply run_fixed
    intro e he
    rcases hts e he with rfl | rfl | rfl
    · exact hstale _ hreqA (n - 3) (.ok p1) hidx1
    · exact hstale _ hreqA (n - 2) (.ok p2) hidx2
    · exact hidem
  have hpair : ∀ ts : List Event,
      (∀ e ∈ ts, e = Event.resolve (n - 3) (.ok p1) ∨
        e = Event.resolve (n - 2) (.ok p2) ∨ e = Event.resolve (n - 1) (.ok p3)) →
      (run s1 ts = s1 ∨ run s1 ts = step s1 (.resolve (n - 1) (.ok p3))) ∧
      (Event.resolve (n - 1) (.ok p3) ∈ ts →
        run s1 ts = step s1 (.resolve (n - 1) (.ok p3))) := by
    intro ts
    induction ts with
    | nil =>
      intro _
      exact ⟨Or.inl rfl, fun hmem' => absurd hmem' (List.not_mem_nil _)⟩
    | cons e t ih =>
      intro hts
      have htl : ∀ e' ∈ t, e' = Event.resolve (n - 3) (.ok p1) ∨
          e' = Event.resolve (n - 2) (.ok p2) ∨ e' = Event.resolve (n - 1) (.ok p3) :=
        fun e' he' => hts e' (List.mem_cons_of_mem e he')
      by_cases he3 : e = Event.resolve (n - 1) (.ok p3)
      · subst he3
        rw [run_cons]
        exact ⟨Or.inr (hconst t htl), fun _ => hconst t htl⟩
      · have hestep : step s1 e = s1 := by
          rcases hts e (List.mem_cons_self e t) with rfl | rfl | rfl
          · exact hstale s1 rfl (n - 3) (.ok p1) hidx1
          · exact hstale s1 rfl (n - 2) (.ok p2) hidx2
          · exact absurd rfl he3
        rw [run_cons, hestep]
        refine ⟨(ih htl).1, fun hmem' => (ih htl).2 ?_⟩
        rcases List.mem_cons.mp hmem' with heq | hmem''
        · exact absurd heq.symm he3
        · exact hmem''
  have hdisp : displayedRows sel3.scope (step s1 (.resolve (n - 1) (.ok p3))) = p3 := by
    rw [happly]
    cases sel3.scope <;> rfl
  constructor
  · rw [(hpair rs hmem).2 h3]
    exact hdisp
  · intro t₁ t₂ hsplit12
    have ht₁ : ∀ e ∈ t₁, e = Event.resolve (n - 3) (.ok p1) ∨
        e = Event.resolve (n - 2) (.ok p2) ∨ e = Event.resolve (n - 1) (.ok p3) :=
      fun e he => hmem e (by rw [hsplit12]; exact List.mem_append_left t₂ he)
    rcases (hpair t₁ ht₁).1 with h | h
    · exact Or.inl (by rw [h])
    · exact Or.inr (by rw [h]; exact hdisp)

/-- C1 witness: concrete run of the racing scenario — three all-scope
selection changes with distinct responses, resolutions arriving in the
order W2, W3, W1 (W1 last); the displayed rows equal W3's response
`[exRow1]`, not W1's. -/
theorem C1_witness :
    (∀ e ∈ c1resolves,
      e = Event.resolve 0 (.ok [exRow100]) ∨
      e = Event.resolve 1 (.ok [exRow200]) ∨
      e = Event.resolve 2 (.ok [exRow1])) ∧
    Event.resolve 2 (.ok [exRow1]) ∈ c1resolves ∧
    displayedRows Scope.all (run (run initState c1issues) c1resolves) = [exRow1] := by
  refine ⟨by decide, by decide, ?_⟩
  have h := C1_last_selection_wins [] ⟨1, .all⟩ ⟨3, .all⟩ ⟨6, .all⟩
    [exRow100] [exRow200] [exRow1] c1resolves
    (run initState ([] ++ [.issue ⟨1, .all⟩, .issue ⟨3, .all⟩, .issue ⟨6, .all⟩])) 3
    rfl (by decide) (by decide) (by decide)
  exact h.1

/-- C6 counterexample: after loading the all-boroughs rows and then
switching to a borough and applying its response, the borough-granularity
rows are NOT cleared — they remain in `salesData`, so stale cross-scope
rows do remain in state. -/
theorem C6_counterexample :
    (run initState c6trace).salesData = exRowsManhattan ∧
    exRowsManhattan ≠ [] ∧
    (run initState c6trace).neighborhoodData = exRowsWilliamsburg :=
  ⟨rfl, by simp [exRowsManhattan], rfl⟩

/-- C6 amended: applying a still-current all-boroughs result replaces
`salesData` AND clears `neighborhoodData`; applying a still-current
borough result replaces `neighborhoodData` but leaves `salesData`
untouched — the opposite-granularity borough rows remain in state (they
are merely no longer displayed). -/
theorem C6_scope_switch_clearing (s : AppState) (idx : ℕ) (req : Request) (rows : List Row)
    (h : s.requests[idx]? = some req) (hc : req.cancel = false) :
    (req.sel.scope = Scope.all →
      (step s (.resolve idx (.ok rows))).salesData = rows ∧
      (step s (.resolve idx (.ok rows))).neighborhoodData = []) ∧
    (∀ b, req.sel.scope = Scope.borough b →
      (step s (.resolve idx (.ok rows))).neighborhoodData = rows ∧
      (step s (.resolve idx (.ok rows))).salesData = s.salesData) := by
  rw [step_resolve_live s idx (.ok rows) req h hc]
  constructor
  · intro hsc
    rw [hsc]
    exact ⟨rfl, rfl⟩
  · intro b hsc
    rw [hsc]
    exact ⟨rfl, rfl⟩

/-- C6 witness: in a state with a live all-boroughs request, applying its
response clears the neighborhood rows. -/
theorem C6_witness :
    c6state.requests[0]? = some ⟨⟨12, Scope.all⟩, false⟩ ∧
    ((step c6state (.resolve 0 (.ok []))).salesData = [] ∧
     (step c6state (.resolve 0 (.ok []))).neighborhoodData = []) :=
  ⟨rfl, (C6_scope_switch_clearing c6state 0 ⟨⟨12, Scope.all⟩, false⟩ [] rfl rfl).1 rfl⟩

/-- C7: a failed fetch whose request is still current leaves both row
collections at their last-known values (no partial overwrite) while the
`finally` still clears the loading flag. -/
theorem C7_failure_keeps_rows (s : AppState) (idx : ℕ) (req : Request)
    (h : s.requests[idx]? = some req) (hc : req.cancel = false) :
    (step s (.resolve idx .fail)).salesData = s.salesData ∧
    (step s (.resolve idx .fail)).neighborhoodData = s.neighborhoodData ∧
    (step s (.resolve idx .fail)).loadingNYC = false := by
  rw [step_resolve_live s idx FetchResult.fail req h hc]
  cases req.sel.scope <;> exact ⟨rfl, rfl, rfl⟩

/-- C7 witness: concrete failing fetch against a live request — rows keep
their previous values, loading clears. -/
theorem C7_witness :
    c6state.requests[0]? = some ⟨⟨12, Scope.all⟩, false⟩ ∧
    ((step c6state (.resolve 0 .fail)).salesData = c6state.salesData ∧
     (step c6state (.resolve 0 .fail)).neighborhoodData = c6state.neighborhoodData ∧
     (step c6state (.resolve 0 .fail)).loadingNYC = false) :=
  ⟨rfl, C7_failure_keeps_rows c6state 0 ⟨⟨12, Scope.all⟩, false⟩ rfl rfl⟩

/-- C8: every selection change sets the loading flag synchronously in the
same step; a resolution of the still-current (uncancelled) request clears
it, on success or failure alike; and a resolution whose request was
superseded — or whose index is unknown — leaves the entire state,
loading flag included, unchanged. -/
theorem C8_loading_discipline (s : AppState) (sel : Selection) (idx : ℕ) (res : FetchResult) :
    (step s (.issue sel)).loadingNYC = true ∧
    (∀ req, s.requests[idx]? = some req → req.cancel = false →
      (step s (.resolve idx res)).loadingNYC = false) ∧
    (∀ req, s.requests[idx]? = some req → req.cancel = true →
      step s (.resolve idx res) = s) ∧
    (s.requests[idx]? = none → step s (.resolve idx res) = s) := by
  refine ⟨rfl, ?_, ?_, ?_⟩
  · intro req h hc
    rw [step_resolve_live s idx res req h hc]
  · intro req h hc
    exact step_resolve_stale s idx res req h hc
  · intro h
    exact step_resolve_missing s idx res h

/-- C8 witness: concrete state with one live request — issuing sets
loading, resolving the live request clears it, and a stale resolution
(after a further selection change) leaves the state unchanged. -/
theorem C8_witness :
    (step c6state (.issue ⟨6, Scope.all⟩)).loadingNYC = true ∧
    c6state.requests[0]? = some ⟨⟨12, Scope.all⟩, false⟩ ∧
    (step c6state (.resolve 0 (.ok []))).loadingNYC = false ∧
    (step (step c6state (.issue ⟨6, Scope.all⟩)) (.resolve 0 .fail)) =
      step c6state (.issue ⟨6, Scope.all⟩) :=
  ⟨(C8_loading_discipline c6state ⟨6, Scope.all⟩ 0 (.ok [])).1,
   rfl,
   (C8_loading_discipline c6state ⟨6, Scope.all⟩ 0 (.ok [])).2.1 ⟨⟨12, Scope.all⟩, false⟩ rfl rfl,
   (C8_loading_discipline (step c6state (.issue ⟨6, Scope.all⟩)) ⟨6, Scope.all⟩ 0 .fail).2.2.1
     ⟨⟨12, Scope.all⟩, true⟩ rfl rfl⟩

end NYCDash
